import Mathlib

/-!
Shallow embedding of the retrieval core of the RAG notebook:
the similarity function calculate_cosine_similarity and the
top-k retriever retrieve_documents.  Vectors are lists of real
numbers; the numpy dot product of two one-dimensional arrays of
unequal length raises a ValueError, modelled here by an Option
result.  The Python list sort with a score key and reverse set to
true is a stable descending sort, modelled by List.mergeSort with
a boolean comparison on the score component.  Python slicing with
an arbitrary integer bound is modelled by pySlice.  The query
embedding step is an external collaborator call, so the retriever
here takes the already computed query vector.
-/

namespace RAG

/-- A corpus document: a text together with its precomputed embedding,
as stored in the document_embeddings entries of the notebook. -/
structure Document where
  text : String
  embedding : List ℝ

/-- Sum of the pairwise products of two vectors, the value that
np.dot returns on one-dimensional arrays of equal length. -/
def dotL (v w : List ℝ) : ℝ :=
  (List.zipWith (fun a b => a * b) v w).sum

/-- Sum of squares of the entries of a vector. -/
def sumSq (v : List ℝ) : ℝ :=
  (v.map (fun x => x * x)).sum

/-- np.dot on one-dimensional arrays: the sum of pairwise products
when the lengths agree, and a raised ValueError, modelled as none,
when they differ. -/
def np_dot (v w : List ℝ) : Option ℝ :=
  if v.length = w.length then some (dotL v w) else none

/-- np.linalg.norm: the Euclidean norm, the square root of the sum
of squares of the entries. -/
noncomputable def np_norm (v : List ℝ) : ℝ :=
  Real.sqrt (sumSq v)

/-- The function calculate_cosine_similarity of the notebook: the dot
product is computed first (raising, hence none, on a length mismatch),
then if either norm is zero the result is 0.0, otherwise the dot
product divided by the product of the norms. -/
noncomputable def calculate_cosine_similarity (vec1 vec2 : List ℝ) : Option ℝ :=
  match np_dot vec1 vec2 with
  | none => none
  | some dot_product =>
    if np_norm vec1 = 0 ∨ np_norm vec2 = 0 then some 0
    else some (dot_product / (np_norm vec1 * np_norm vec2))

/-- The cosine similarity value in the words of the specification:
the dot product divided by the product of the two Euclidean norms,
with the zero-norm case defined as 0.0. -/
noncomputable def cosineValue (v w : List ℝ) : ℝ :=
  if np_norm v = 0 ∨ np_norm w = 0 then 0
  else dotL v w / (np_norm v * np_norm w)

/-- The comparison used by the Python sort of the similarity list:
key on the score component, descending.  mergeSort with this
comparison is the stable descending sort that list.sort with
reverse set to true performs. -/
noncomputable def descBySim (a b : ℝ × String) : Bool :=
  decide (b.1 ≤ a.1)

/-- Python slicing l[:k] for an arbitrary integer k: the first k
elements when k is nonnegative, and all but the last |k| elements
when k is negative. -/
def pySlice {α : Type} (l : List α) (k : Int) : List α :=
  if 0 ≤ k then l.take k.toNat else l.take (l.length - (-k).toNat)

/-- The similarity loop of retrieve_documents: one (score, text) pair
per document, with a raised error from the similarity call, modelled
as none, propagating to the whole loop. -/
noncomputable def computeSimilarities (q : List ℝ) : List Document → Option (List (ℝ × String))
  | [] => some []
  | d :: ds =>
    match calculate_cosine_similarity q d.embedding with
    | none => none
    | some s =>
      match computeSimilarities q ds with
      | none => none
      | some rest => some ((s, d.text) :: rest)

/-- The function retrieve_documents of the notebook, with the external
embed_query call factored out: score every corpus document against the
query vector, sort the (score, text) pairs stably by descending score,
slice the first num_documents_to_retrieve pairs with Python slicing
semantics, and return their texts. -/
noncomputable def retrieve_documents (query_embedding : List ℝ) (corpus : List Document)
    (num_documents_to_retrieve : Int) : Option (List String) :=
  match computeSimilarities query_embedding corpus with
  | none => none
  | some similarities =>
    some ((pySlice (similarities.mergeSort descBySim) num_documents_to_retrieve).map Prod.snd)

/-- The corpus scored against a query: the (score, text) pair of every
document, in corpus order. -/
noncomputable def scoredCorpus (q : List ℝ) (c : List Document) : List (ℝ × String) :=
  c.map (fun d => (cosineValue q d.embedding, d.text))

/-- The full ranking a retrieval call builds before slicing: the scored
corpus stably sorted by descending score. -/
noncomputable def ranking (q : List ℝ) (c : List Document) : List (ℝ × String) :=
  (scoredCorpus q c).mergeSort descBySim

/-! Basic facts about the embedded arithmetic. -/

theorem sumSq_nonneg (v : List ℝ) : 0 ≤ sumSq v := by
  apply List.sum_nonneg
  intro x hx
  obtain ⟨a, _, rfl⟩ := List.mem_map.mp hx
  exact mul_self_nonneg a

theorem np_norm_nonneg (v : List ℝ) : 0 ≤ np_norm v := Real.sqrt_nonneg _

theorem np_norm_eq_zero_iff (v : List ℝ) : np_norm v = 0 ↔ sumSq v = 0 := by
  unfold np_norm
  rw [Real.sqrt_eq_zero (sumSq_nonneg v)]

theorem mul_self_np_norm (v : List ℝ) : np_norm v * np_norm v = sumSq v :=
  Real.mul_self_sqrt (sumSq_nonneg v)

theorem sumSq_eq_zero_iff (v : List ℝ) : sumSq v = 0 ↔ ∀ x ∈ v, x = 0 := by
  induction v with
  | nil => simp [sumSq]
  | cons a v ih =>
    have h1 : sumSq (a :: v) = a * a + sumSq v := by simp [sumSq]
    rw [h1, add_eq_zero_iff_of_nonneg (mul_self_nonneg a) (sumSq_nonneg v)]
    simp [mul_self_eq_zero, ih, List.forall_mem_cons]

theorem dotL_self (v : List ℝ) : dotL v v = sumSq v := by
  unfold dotL sumSq
  rw [List.zipWith_same]

theorem dotL_comm (v w : List ℝ) : dotL v w = dotL w v := by
  unfold dotL
  rw [List.zipWith_comm_of_comm _ mul_comm]

/-! Cauchy-Schwarz for the embedded dot product, by the discriminant
of the quadratic t maps to sumSq (v - t w). -/

theorem sumSq_expand (t : ℝ) (v : List ℝ) : ∀ w : List ℝ, v.length = w.length →
    sumSq (List.zipWith (fun a b => a - t * b) v w)
      = sumSq v - 2 * t * dotL v w + t ^ 2 * sumSq w := by
  induction v with
  | nil =>
    intro w h
    cases w with
    | nil => simp [sumSq, dotL]
    | cons b w => simp at h
  | cons a v ih =>
    intro w h
    cases w with
    | nil => simp at h
    | cons b w =>
      have h' : v.length = w.length := by simpa using h
      have e := ih w h'
      simp only [List.zipWith_cons_cons, sumSq, List.map_cons, List.sum_cons, dotL] at e ⊢
      linear_combination e

theorem sumSq_sub_nonneg (t : ℝ) (v w : List ℝ) (h : v.length = w.length) :
    0 ≤ sumSq v - 2 * t * dotL v w + t ^ 2 * sumSq w := by
  rw [← sumSq_expand t v w h]
  exact sumSq_nonneg _

theorem sq_dotL_le (v w : List ℝ) (h : v.length = w.length) :
    dotL v w ^ 2 ≤ sumSq v * sumSq w := by
  have key : ∀ t : ℝ, 0 ≤ sumSq w * (t * t) + -2 * dotL v w * t + sumSq v := by
    intro t
    have h1 : sumSq w * (t * t) + -2 * dotL v w * t + sumSq v
        = sumSq v - 2 * t * dotL v w + t ^ 2 * sumSq w := by ring
    rw [h1]
    exact sumSq_sub_nonneg t v w h
  have hd := discrim_le_zero key
  unfold discrim at hd
  nlinarith [hd]

theorem abs_dotL_le (v w : List ℝ) (h : v.length = w.length) :
    |dotL v w| ≤ np_norm v * np_norm w := by
  have h1 : |dotL v w| = Real.sqrt (dotL v w ^ 2) := (Real.sqrt_sq_eq_abs _).symm
  have h2 : Real.sqrt (dotL v w ^ 2) ≤ Real.sqrt (sumSq v * sumSq w) :=
    Real.sqrt_le_sqrt (sq_dotL_le v w h)
  rw [Real.sqrt_mul (sumSq_nonneg v)] at h2
  rw [h1]
  exact h2

theorem cosineValue_mem : ∀ (v w : List ℝ), v.length = w.length →
    -1 ≤ cosineValue v w ∧ cosineValue v w ≤ 1 := by
  intro v w h
  unfold cosineValue
  split
  · norm_num
  · rename_i hz
    push_neg at hz
    obtain ⟨h1, h2⟩ := hz
    have p1 : 0 < np_norm v := lt_of_le_of_ne (np_norm_nonneg v) (Ne.symm h1)
    have p2 : 0 < np_norm w := lt_of_le_of_ne (np_norm_nonneg w) (Ne.symm h2)
    have hp : 0 < np_norm v * np_norm w := mul_pos p1 p2
    have habs : |dotL v w / (np_norm v * np_norm w)| ≤ 1 := by
      rw [abs_div, abs_of_pos hp]
      exact div_le_one_of_le₀ (abs_dotL_le v w h) (le_of_lt hp)
    exact abs_le.mp habs

/-! Evaluation lemmas connecting the source functions to the value
level helpers. -/

theorem calculate_eq_some (v w : List ℝ) (h : v.length = w.length) :
    calculate_cosine_similarity v w = some (cosineValue v w) := by
  have hdot : np_dot v w = some (dotL v w) := by
    unfold np_dot
    rw [if_pos h]
  unfold calculate_cosine_similarity cosineValue
  rw [hdot]
  split
  · rename_i heq
    exact absurd heq (by simp)
  · rename_i dp heq
    obtain rfl : dotL v w = dp := Option.some.inj heq
    by_cases hc : np_norm v = 0 ∨ np_norm w = 0
    · rw [if_pos hc, if_pos hc]
    · rw [if_neg hc, if_neg hc]

theorem computeSimilarities_eq (q : List ℝ) (c : List Document)
    (hdim : ∀ d ∈ c, d.embedding.length = q.length) :
    computeSimilarities q c = some (scoredCorpus q c) := by
  induction c with
  | nil => simp [computeSimilarities, scoredCorpus]
  | cons d ds ih =>
    have hd : d.embedding.length = q.length := hdim d (List.mem_cons_self d ds)
    have h1 : calculate_cosine_similarity q d.embedding = some (cosineValue q d.embedding) :=
      calculate_eq_some q d.embedding hd.symm
    have h2 := ih (fun x hx => hdim x (List.mem_cons_of_mem d hx))
    simp [computeSimilarities, h1, h2, scoredCorpus]

theorem retrieve_eq (q : List ℝ) (c : List Document) (k : Int)
    (hdim : ∀ d ∈ c, d.embedding.length = q.length) :
    retrieve_documents q c k = some ((pySlice (ranking q c) k).map Prod.snd) := by
  unfold retrieve_documents ranking
  rw [computeSimilarities_eq q c hdim]

/-! The sort comparison is transitive and total, so the mergeSort
lemmas of the library apply. -/

theorem descBySim_trans : ∀ a b c : ℝ × String,
    descBySim a b → descBySim b c → descBySim a c := by
  intro a b c hab hbc
  simp only [descBySim, decide_eq_true_eq] at *
  exact le_trans hbc hab

theorem descBySim_total : ∀ a b : ℝ × String, descBySim a b || descBySim b a := by
  intro a b
  simp only [descBySim, Bool.or_eq_true, decide_eq_true_eq]
  exact le_total b.1 a.1

theorem ranking_perm (q : List ℝ) (c : List Document) :
    (ranking q c).Perm (scoredCorpus q c) :=
  List.mergeSort_perm _ _

theorem ranking_sorted (q : List ℝ) (c : List Document) :
    (ranking q c).Pairwise (fun a b => b.1 ≤ a.1) := by
  have h := List.sorted_mergeSort descBySim_trans descBySim_total (scoredCorpus q c)
  exact h.imp (by intro a b hab; simpa [descBySim, decide_eq_true_eq] using hab)

theorem ranking_length (q : List ℝ) (c : List Document) :
    (ranking q c).length = c.length := by
  unfold ranking scoredCorpus
  rw [List.length_mergeSort, List.length_map]

theorem pairwise_of_const_score (s : ℝ) : ∀ l : List (ℝ × String),
    (∀ x ∈ l, x.1 = s) → l.Pairwise (fun a b => descBySim a b = true) := by
  intro l
  induction l with
  | nil => intro _; exact List.Pairwise.nil
  | cons a l ih =>
    intro hl
    constructor
    · intro b hb
      have ha := hl a (List.mem_cons_self a l)
      have hb' := hl b (List.mem_cons_of_mem a hb)
      simp [descBySim, ha, hb']
    · exact ih (fun x hx => hl x (List.mem_cons_of_mem a hx))

theorem ranking_filter_stable (q : List ℝ) (c : List Document) (s : ℝ) :
    (ranking q c).filter (fun p => decide (p.1 = s))
      = (scoredCorpus q c).filter (fun p => decide (p.1 = s)) := by
  have hmem : ∀ x ∈ (scoredCorpus q c).filter (fun p => decide (p.1 = s)), x.1 = s := by
    intro x hx
    have h2 := (List.mem_filter.mp hx).2
    simpa using h2
  have hpw := pairwise_of_const_score s _ hmem
  have h1 : List.Sublist ((scoredCorpus q c).filter (fun p => decide (p.1 = s)))
      (scoredCorpus q c) :=
    List.filter_sublist _
  have h2 : List.Sublist ((scoredCorpus q c).filter (fun p => decide (p.1 = s)))
      (ranking q c) :=
    List.sublist_mergeSort descBySim_trans descBySim_total hpw h1
  have h3 := h2.filter (fun p => decide (p.1 = s))
  rw [List.filter_eq_self.mpr (fun a ha => (List.mem_filter.mp ha).2)] at h3
  have hperm : ((ranking q c).filter (fun p => decide (p.1 = s))).Perm
      ((scoredCorpus q c).filter (fun p => decide (p.1 = s))) :=
    (ranking_perm q c).filter _
  exact (h3.eq_of_length hperm.length_eq.symm).symm

/-! Python slicing facts. -/

theorem pySlice_of_nonneg {α : Type} (l : List α) (k : Int) (h : 0 ≤ k) :
    pySlice l k = l.take k.toNat := if_pos h

theorem pySlice_all {α : Type} (l : List α) (k : Int) (h : (l.length : Int) ≤ k) :
    pySlice l k = l := by
  have h0 : 0 ≤ k := le_trans (Int.ofNat_nonneg _) h
  rw [pySlice_of_nonneg l k h0]
  apply List.take_of_length_le
  omega

theorem pySlice_of_neg {α : Type} (l : List α) (k : Int) (h : k < 0) :
    pySlice l k = l.take (l.length - (-k).toNat) := if_neg (by omega)

theorem calculate_none_of_length_ne (v w : List ℝ) (h : v.length ≠ w.length) :
    calculate_cosine_similarity v w = none := by
  have h1 : np_dot v w = none := by
    unfold np_dot
    rw [if_neg h]
  unfold calculate_cosine_similarity
  rw [h1]

/-! The claims. -/

/-- C1: for every query vector, every corpus whose embeddings have the
dimensionality of the query, and every positive integer k,
retrieve_documents scores every corpus document by cosine similarity (the
ranking is a permutation of the scored corpus), the ranking is sorted by
descending score, the call returns the texts of its first k entries, and
when k is at least the corpus size it returns the texts of all documents
in descending similarity order. -/
theorem retrieve_documents_topk (q : List ℝ) (c : List Document) (k : Int)
    (hk : 0 < k) (hdim : ∀ d ∈ c, d.embedding.length = q.length) :
    (ranking q c).Perm (scoredCorpus q c)
    ∧ (ranking q c).Pairwise (fun a b => b.1 ≤ a.1)
    ∧ retrieve_documents q c k = some (((ranking q c).take k.toNat).map Prod.snd)
    ∧ ((c.length : Int) ≤ k →
        retrieve_documents q c k = some ((ranking q c).map Prod.snd)) := by
  refine ⟨ranking_perm q c, ranking_sorted q c, ?_, ?_⟩
  · rw [retrieve_eq q c k hdim, pySlice_of_nonneg _ _ (le_of_lt hk)]
  · intro hge
    have hlen : ((ranking q c).length : Int) ≤ k := by
      rw [ranking_length]
      exact hge
    rw [retrieve_eq q c k hdim, pySlice_all _ _ hlen]

/-- Witness for C1 at a one-document corpus with k equal to one. -/
theorem retrieve_documents_topk_witness :
    ((0 : Int) < 1 ∧ ∀ d ∈ [(⟨"a", [1]⟩ : Document)], d.embedding.length = [(1 : ℝ)].length)
    ∧ ((ranking [(1 : ℝ)] [⟨"a", [1]⟩]).Perm (scoredCorpus [(1 : ℝ)] [⟨"a", [1]⟩])
      ∧ (ranking [(1 : ℝ)] [⟨"a", [1]⟩]).Pairwise (fun a b => b.1 ≤ a.1)
      ∧ retrieve_documents [(1 : ℝ)] [⟨"a", [1]⟩] 1
          = some (((ranking [(1 : ℝ)] [⟨"a", [1]⟩]).take (1 : Int).toNat).map Prod.snd)
      ∧ (([(⟨"a", [1]⟩ : Document)].length : Int) ≤ 1 →
          retrieve_documents [(1 : ℝ)] [⟨"a", [1]⟩] 1
            = some ((ranking [(1 : ℝ)] [⟨"a", [1]⟩]).map Prod.snd))) :=
  ⟨⟨by norm_num, by intro d hd; fin_cases hd; rfl⟩,
    retrieve_documents_topk [(1 : ℝ)] [⟨"a", [1]⟩] 1 (by norm_num)
      (by intro d hd; fin_cases hd; rfl)⟩

/-- C2: the descending sort is stable: for every score s, the ranking
filtered to the documents scored s equals the scored corpus filtered the
same way, so tied documents keep their corpus order; retrieve_documents
with k equal to the corpus size returns exactly the texts of that
ranking. -/
theorem retrieve_documents_stable (q : List ℝ) (c : List Document)
    (hdim : ∀ d ∈ c, d.embedding.length = q.length) :
    (∀ s : ℝ, (ranking q c).filter (fun p => decide (p.1 = s))
        = (scoredCorpus q c).filter (fun p => decide (p.1 = s)))
    ∧ retrieve_documents q c (c.length : Int) = some ((ranking q c).map Prod.snd) := by
  refine ⟨fun s => ranking_filter_stable q c s, ?_⟩
  have hlen : ((ranking q c).length : Int) ≤ (c.length : Int) := by
    rw [ranking_length]
  rw [retrieve_eq q c _ hdim, pySlice_all _ _ hlen]

/-- Witness for C2 at a two-document corpus with tied scores. -/
theorem retrieve_documents_stable_witness :
    (∀ d ∈ [(⟨"a", [2]⟩ : Document), ⟨"b", [3]⟩], d.embedding.length = [(1 : ℝ)].length)
    ∧ ((∀ s : ℝ, (ranking [(1 : ℝ)] [⟨"a", [2]⟩, ⟨"b", [3]⟩]).filter (fun p => decide (p.1 = s))
          = (scoredCorpus [(1 : ℝ)] [⟨"a", [2]⟩, ⟨"b", [3]⟩]).filter (fun p => decide (p.1 = s)))
      ∧ retrieve_documents [(1 : ℝ)] [⟨"a", [2]⟩, ⟨"b", [3]⟩]
          (([(⟨"a", [2]⟩ : Document), ⟨"b", [3]⟩].length : Int))
          = some ((ranking [(1 : ℝ)] [⟨"a", [2]⟩, ⟨"b", [3]⟩]).map Prod.snd)) :=
  ⟨by intro d hd; fin_cases hd <;> rfl,
    retrieve_documents_stable [(1 : ℝ)] [⟨"a", [2]⟩, ⟨"b", [3]⟩]
      (by intro d hd; fin_cases hd <;> rfl)⟩

/-- C3 counterexample: a call with k = 0 on a one-document corpus is not
rejected as a precondition failure; it produces a result, the empty
list. -/
theorem retrieve_documents_k_zero_counterexample :
    retrieve_documents [(0 : ℝ)] [⟨"a", [0]⟩] 0 = some [] := by
  have hdim : ∀ d ∈ [(⟨"a", [0]⟩ : Document)], d.embedding.length = [(0 : ℝ)].length := by
    intro d hd
    rw [List.mem_singleton] at hd
    subst hd
    rfl
  rw [retrieve_eq _ _ _ hdim, pySlice_of_nonneg _ _ le_rfl]
  simp

/-- C3 amended: a non-positive k is not rejected; the call still returns a
value, namely the empty list for k = 0, and for negative k the texts of
the descending ranking with the last |k| entries dropped. -/
theorem retrieve_documents_nonpos_k (q : List ℝ) (c : List Document) (k : Int)
    (hk : k ≤ 0) (hdim : ∀ d ∈ c, d.embedding.length = q.length) :
    retrieve_documents q c k
      = some (if k = 0 then []
          else ((ranking q c).take ((c.length : Int) + k).toNat).map Prod.snd) := by
  rcases lt_or_eq_of_le hk with hlt | heq
  · have harg : (ranking q c).length - (-k).toNat = ((c.length : Int) + k).toNat := by
      rw [ranking_length]
      omega
    rw [retrieve_eq q c k hdim, pySlice_of_neg _ _ hlt, harg, if_neg (by omega)]
  · subst heq
    rw [retrieve_eq q c 0 hdim, pySlice_of_nonneg _ _ le_rfl, if_pos rfl]
    simp

/-- Witness for C3 amended at k equal to minus one. -/
theorem retrieve_documents_nonpos_k_witness :
    ((-1 : Int) ≤ 0 ∧ ∀ d ∈ [(⟨"a", [1]⟩ : Document)], d.embedding.length = [(1 : ℝ)].length)
    ∧ retrieve_documents [(1 : ℝ)] [⟨"a", [1]⟩] (-1)
        = some (if (-1 : Int) = 0 then []
            else ((ranking [(1 : ℝ)] [⟨"a", [1]⟩]).take
              (([(⟨"a", [1]⟩ : Document)].length : Int) + -1).toNat).map Prod.snd) :=
  ⟨⟨by norm_num, by intro d hd; fin_cases hd; rfl⟩,
    retrieve_documents_nonpos_k [(1 : ℝ)] [⟨"a", [1]⟩] (-1) (by norm_num)
      (by intro d hd; fin_cases hd; rfl)⟩

/-- C4: over an empty corpus, retrieve_documents returns the empty list for
every query vector and every integer k, and never an error. -/
theorem retrieve_documents_empty_corpus (q : List ℝ) (k : Int) :
    retrieve_documents q [] k = some [] := by
  have h : computeSimilarities q [] = some [] := rfl
  unfold retrieve_documents
  rw [h]
  simp [pySlice]

/-- C5: for equal-length vectors of which at least one has zero Euclidean
norm, calculate_cosine_similarity returns exactly 0.0 rather than a
division error. -/
theorem calculate_zero_norm (v w : List ℝ) (hlen : v.length = w.length)
    (h : np_norm v = 0 ∨ np_norm w = 0) :
    calculate_cosine_similarity v w = some 0 := by
  rw [calculate_eq_some v w hlen]
  unfold cosineValue
  rw [if_pos h]

/-- Witness for C5 at the one-entry zero vectors. -/
theorem calculate_zero_norm_witness :
    ([(0 : ℝ)].length = [(0 : ℝ)].length ∧ np_norm [(0 : ℝ)] = 0)
    ∧ calculate_cosine_similarity [(0 : ℝ)] [(0 : ℝ)] = some 0 :=
  ⟨⟨rfl, by simp [np_norm, sumSq]⟩,
    calculate_zero_norm [(0 : ℝ)] [(0 : ℝ)] rfl (Or.inl (by simp [np_norm, sumSq]))⟩

/-- C6: for equal-length vectors, calculate_cosine_similarity returns
exactly the value of the specification formula, the dot product divided by
the product of the Euclidean norms with the zero-norm case defined as 0.0,
and that value lies in the interval from -1 to 1. -/
theorem calculate_range (v w : List ℝ) (hlen : v.length = w.length) :
    calculate_cosine_similarity v w = some (cosineValue v w)
    ∧ -1 ≤ cosineValue v w ∧ cosineValue v w ≤ 1 :=
  ⟨calculate_eq_some v w hlen, cosineValue_mem v w hlen⟩

/-- Witness for C6 at the one-entry unit vectors. -/
theorem calculate_range_witness :
    ([(1 : ℝ)].length = [(1 : ℝ)].length)
    ∧ (calculate_cosine_similarity [(1 : ℝ)] [(1 : ℝ)]
        = some (cosineValue [(1 : ℝ)] [(1 : ℝ)])
      ∧ -1 ≤ cosineValue [(1 : ℝ)] [(1 : ℝ)] ∧ cosineValue [(1 : ℝ)] [(1 : ℝ)] ≤ 1) :=
  ⟨rfl, calculate_range [(1 : ℝ)] [(1 : ℝ)] rfl⟩

/-- C7: calculate_cosine_similarity is symmetric in its two arguments,
including the zero-norm degenerate case and the length-mismatch error
case. -/
theorem calculate_symm (v w : List ℝ) :
    calculate_cosine_similarity v w = calculate_cosine_similarity w v := by
  by_cases h : v.length = w.length
  · rw [calculate_eq_some v w h, calculate_eq_some w v h.symm]
    unfold cosineValue
    rw [dotL_comm v w, mul_comm (np_norm v) (np_norm w)]
    by_cases hz : np_norm v = 0 ∨ np_norm w = 0
    · rw [if_pos hz, if_pos hz.symm]
    · rw [if_neg hz, if_neg (fun hc => hz hc.symm)]
  · rw [calculate_none_of_length_ne v w h,
      calculate_none_of_length_ne w v (fun e => h e.symm)]

/-- C8: self-similarity is exactly 1 unless the vector has zero norm,
equivalently is the zero vector, where it is 0. -/
theorem calculate_self (v : List ℝ) :
    (np_norm v = 0 ↔ ∀ x ∈ v, x = 0)
    ∧ (np_norm v = 0 → calculate_cosine_similarity v v = some 0)
    ∧ (np_norm v ≠ 0 → calculate_cosine_similarity v v = some 1) := by
  refine ⟨by rw [np_norm_eq_zero_iff]; exact sumSq_eq_zero_iff v, ?_, ?_⟩
  · intro h0
    rw [calculate_eq_some v v rfl]
    unfold cosineValue
    rw [if_pos (Or.inl h0)]
  · intro hne
    rw [calculate_eq_some v v rfl]
    unfold cosineValue
    rw [if_neg (by tauto)]
    rw [dotL_self, mul_self_np_norm]
    have hs : sumSq v ≠ 0 := fun h => hne ((np_norm_eq_zero_iff v).mpr h)
    rw [div_self hs]

/-- Witness for C8 at a unit vector and at the zero vector. -/
theorem calculate_self_witness :
    (np_norm [(1 : ℝ)] ≠ 0 ∧ calculate_cosine_similarity [(1 : ℝ)] [(1 : ℝ)] = some 1)
    ∧ (np_norm [(0 : ℝ)] = 0 ∧ calculate_cosine_similarity [(0 : ℝ)] [(0 : ℝ)] = some 0) :=
  ⟨⟨by simp [np_norm, sumSq], (calculate_self [(1 : ℝ)]).2.2 (by simp [np_norm, sumSq])⟩,
    ⟨by simp [np_norm, sumSq], (calculate_self [(0 : ℝ)]).2.1 (by simp [np_norm, sumSq])⟩⟩

/-- C9: a similarity comparison between vectors of different lengths
surfaces explicitly as an error, the raised numpy ValueError modelled as
none, never a silently truncated or padded numeric result. -/
theorem calculate_dim_mismatch (v w : List ℝ) (h : v.length ≠ w.length) :
    calculate_cosine_similarity v w = none :=
  calculate_none_of_length_ne v w h

/-- Witness for C9 at lengths one and two. -/
theorem calculate_dim_mismatch_witness :
    ([(1 : ℝ)].length ≠ [(1 : ℝ), 0].length)
    ∧ calculate_cosine_similarity [(1 : ℝ)] [(1 : ℝ), 0] = none :=
  ⟨by simp, calculate_dim_mismatch [(1 : ℝ)] [(1 : ℝ), 0] (by simp)⟩

/-- C10: with k = 0 the retriever returns the empty list without raising,
and with a negative k between minus the corpus size and zero it returns
the first n + k texts of the descending ranking, that is all but the last
|k| ranked documents, without raising. -/
theorem retrieve_documents_negative_k (q : List ℝ) (c : List Document) (k : Int)
    (hdim : ∀ d ∈ c, d.embedding.length = q.length)
    (hlow : -(c.length : Int) ≤ k) (hneg : k < 0) :
    retrieve_documents q c 0 = some []
    ∧ retrieve_documents q c k
        = some (((ranking q c).take ((c.length : Int) + k).toNat).map Prod.snd) := by
  constructor
  · rw [retrieve_eq q c 0 hdim, pySlice_of_nonneg _ _ le_rfl]
    simp
  · have harg : (ranking q c).length - (-k).toNat = ((c.length : Int) + k).toNat := by
      rw [ranking_length]
      omega
    rw [retrieve_eq q c k hdim, pySlice_of_neg _ _ hneg, harg]

/-- Witness for C10 at a two-document corpus with k equal to minus one. -/
theorem retrieve_documents_negative_k_witness :
    ((∀ d ∈ [(⟨"a", [1]⟩ : Document), ⟨"b", [2]⟩], d.embedding.length = [(1 : ℝ)].length)
      ∧ -(([(⟨"a", [1]⟩ : Document), ⟨"b", [2]⟩].length : Int)) ≤ -1 ∧ (-1 : Int) < 0)
    ∧ (retrieve_documents [(1 : ℝ)] [⟨"a", [1]⟩, ⟨"b", [2]⟩] 0 = some []
      ∧ retrieve_documents [(1 : ℝ)] [⟨"a", [1]⟩, ⟨"b", [2]⟩] (-1)
          = some (((ranking [(1 : ℝ)] [⟨"a", [1]⟩, ⟨"b", [2]⟩]).take
            ((([(⟨"a", [1]⟩ : Document), ⟨"b", [2]⟩].length : Int) + -1).toNat)).map Prod.snd)) :=
  ⟨⟨by intro d hd; fin_cases hd <;> rfl, by norm_num, by norm_num⟩,
    retrieve_documents_negative_k [(1 : ℝ)] [⟨"a", [1]⟩, ⟨"b", [2]⟩] (-1)
      (by intro d hd; fin_cases hd <;> rfl) (by norm_num) (by norm_num)⟩

end RAG
